import Mathlib

/-!
Verification development for the StringMaster guitar-shop backend
(`scripts/guitar_shop`).  The Python source is shallowly embedded:

* monetary amounts (Python floats holding currency values) are modelled as
  rationals `ℚ`; Python `round(x, 2)` is modelled by `round2` (round to the
  nearest multiple of 1/100; the tie-breaking rule of binary floats is not
  modelled, and no statement below depends on a tie);
* Python ints are `Int` (stock and quantities), SQLite row ids are `Nat`;
* the SHA-256 digest used by `AuthManager` is modelled as a function
  parameter `H : List Char → List Char` (assumed injective where the claim
  needs collision-freeness), and `base64(json.dumps ...)` /
  `json.loads(base64.b64decode ...)` as an encode/decode parameter pair;
* the SQLite tables are association lists inside a `DB` structure, and the
  process state (tables plus the in-memory `user_carts` dict) is `SysState`;
* Python exceptions that the routers translate into HTTP errors are
  `Except String`; a raised exception aborts before any later write, which
  the embedding reflects by returning the input state unchanged.

Timestamps are seconds (`Nat`); `datetime.now() + timedelta(hours=24)`
becomes `now + 86400`.  Presentation-only columns (description, image_url,
created_at, category) play no part in any claim and are omitted from the
row structures.
-/

instance {ε α : Type} [DecidableEq ε] [DecidableEq α] : DecidableEq (Except ε α) := fun
  | .ok a, .ok b =>
    if h : a = b then .isTrue (by rw [h]) else .isFalse (by simp [h])
  | .error e, .error f =>
    if h : e = f then .isTrue (by rw [h]) else .isFalse (by simp [h])
  | .ok _, .error _ => .isFalse (by simp)
  | .error _, .ok _ => .isFalse (by simp)

/-- `models/__init__.py` `UserRole`. -/
inductive UserRole where
  | customer
  | admin
deriving DecidableEq, Repr

/-- `models/__init__.py` `OrderStatus`. -/
inductive OrderStatus where
  | pending
  | confirmed
  | shipped
  | delivered
  | cancelled
deriving DecidableEq, Repr

/-- A row of the `guitars` table / the `Guitar` dataclass (fields that the
claims touch; presentation-only fields omitted). -/
structure Guitar where
  id : Nat
  name : String
  brand : String
  price : ℚ
  stock : Int
  discount_percent : ℚ
deriving DecidableEq, Repr

/-- `models/__init__.py` `CartItem`: a guitar snapshot plus a quantity. -/
structure CartItem where
  guitar : Guitar
  quantity : Int
deriving DecidableEq, Repr

/-- The `ShoppingCart._items` dict: guitar id to cart item, in insertion
order (Python dicts preserve insertion order). -/
abbrev Cart := List (Nat × CartItem)

/-- Python `round(x, 2)`: round to the nearest multiple of 1/100. -/
def round2 (x : ℚ) : ℚ := (⌊100 * x + 1 / 2⌋ : ℚ) / 100

/-- Dict membership / indexing `self._items[guitar_id]`. -/
def lookupLine : Cart → Nat → Option CartItem
  | [], _ => none
  | (k, it) :: rest, gid => if k = gid then some it else lookupLine rest gid

/-- `self._items[guitar_id].quantity = q` (the stored guitar snapshot is kept). -/
def setLineQty : Cart → Nat → Int → Cart
  | [], _, _ => []
  | (k, it) :: rest, gid, q =>
    if k = gid then (k, { it with quantity := q }) :: rest
    else (k, it) :: setLineQty rest gid q

/-- `ShoppingCart.remove_item`: delete the line if present, no-op otherwise. -/
def remove_item (c : Cart) (gid : Nat) : Cart :=
  c.filter (fun l => l.1 != gid)

/-- `ShoppingCart.add_item` (models/__init__.py lines 277-290). -/
def add_item (c : Cart) (g : Guitar) (q : Int) : Except String Cart :=
  if q ≤ 0 then .error "Quantity must be positive"
  else if g.stock < q then
    .error ("Only " ++ toString g.stock ++ " items available in stock")
  else
    match lookupLine c g.id with
    | some it =>
      if g.stock < it.quantity + q then
        .error ("Cannot add more. Only " ++ toString g.stock ++ " available")
      else .ok (setLineQty c g.id (it.quantity + q))
    | none => .ok (c ++ [(g.id, ⟨g, q⟩)])

/-- `ShoppingCart.update_quantity` (models/__init__.py lines 297-307).
The stock check uses the guitar snapshot stored in the cart line. -/
def update_quantity (c : Cart) (gid : Nat) (q : Int) : Except String Cart :=
  match lookupLine c gid with
  | none => .error "Item not in cart"
  | some it =>
    if q ≤ 0 then .ok (remove_item c gid)
    else if it.guitar.stock < q then
      .error ("Only " ++ toString it.guitar.stock ++ " available")
    else .ok (setLineQty c gid q)

/-- `CartItem.subtotal`: `guitar.price * quantity` (no discount). -/
def subtotal (it : CartItem) : ℚ := it.guitar.price * it.quantity

/-- `ShoppingCart.total`: `sum(item.subtotal for item in self._items.values())`. -/
def cartTotal (c : Cart) : ℚ := (c.map (fun l => subtotal l.2)).sum

/-- `ShoppingCart.item_count`: sum of the quantities. -/
def item_count (c : Cart) : Int := (c.map (fun l => l.2.quantity)).sum

/-- `ShoppingCart.is_empty`: `len(self._items) == 0`. -/
def is_empty (c : Cart) : Bool := c.isEmpty

/-- `ShoppingCart.clear`: `self._items.clear()`. -/
def clearCart (_ : Cart) : Cart := []

/-- routers/guitar.py: `price * (1 - discount / 100) if discount > 0 else price`. -/
def effectivePrice (g : Guitar) : ℚ :=
  if 0 < g.discount_percent then g.price * (1 - g.discount_percent / 100) else g.price

/-- The cart total computed by the `get_cart` route (guitar.py lines 151-164):
per line `round(effective_price * quantity, 2)` over the *snapshot* guitar,
then the sum rounded again. -/
def getCartTotal (c : Cart) : ℚ :=
  round2 ((c.map (fun l => round2 (effectivePrice l.2.guitar * l.2.quantity))).sum)

/-- A row of the `users` table (auth-relevant fields; text columns are
`List Char` so that the hashing/token analysis can speak about single
characters). -/
structure UserRow where
  id : Nat
  username : List Char
  email : List Char
  password_hash : List Char
  role : UserRole
  is_online : Bool
deriving DecidableEq, Repr

/-- A row of the `orders` table. -/
structure OrderRow where
  id : Nat
  user_id : Nat
  total : ℚ
  status : OrderStatus
deriving DecidableEq, Repr

/-- A row of the `order_items` table. -/
structure OrderItemRow where
  order_id : Nat
  guitar_id : Nat
  quantity : Int
  price_at_purchase : ℚ
deriving DecidableEq, Repr

/-- A row of the `purchase_notifications` table. -/
structure NotifRow where
  id : Nat
  order_id : Nat
  user_id : Nat
  username : List Char
  total : ℚ
  is_read : Bool
deriving DecidableEq, Repr

/-- The SQLite store of `database.py`, with autoincrement counters. -/
structure DB where
  guitars : List Guitar
  users : List UserRow
  orders : List OrderRow
  order_items : List OrderItemRow
  notifs : List NotifRow
  next_order_id : Nat
  next_notif_id : Nat
  next_user_id : Nat
deriving DecidableEq, Repr

/-- `DatabaseManager.get_guitar`: `SELECT * FROM guitars WHERE id = ?`. -/
def get_guitar (db : DB) (gid : Nat) : Option Guitar :=
  db.guitars.find? (fun g => g.id == gid)

/-- `DatabaseManager.update_stock`:
`UPDATE guitars SET stock = stock + ? WHERE id = ? AND stock + ? >= 0`. -/
def update_stock (db : DB) (gid : Nat) (delta : Int) : DB :=
  { db with guitars := db.guitars.map (fun g =>
      if g.id = gid ∧ 0 ≤ g.stock + delta then { g with stock := g.stock + delta } else g) }

/-- `DatabaseManager.update_guitar` restricted to the `discount_percent`
field, as invoked by `apply_discount_to_guitar`. -/
def update_guitar_discount (db : DB) (gid : Nat) (d : ℚ) : DB :=
  { db with guitars := db.guitars.map (fun g =>
      if g.id = gid then { g with discount_percent := d } else g) }

/-- `DatabaseManager.apply_discount_to_guitar` (database.py lines 307-310). -/
def apply_discount_to_guitar (db : DB) (gid : Nat) (d : ℚ) : Except String DB :=
  if 0 ≤ d ∧ d ≤ 100 then .ok (update_guitar_discount db gid d)
  else .error "Discount must be between 0 and 100"

/-- `DatabaseManager.create_order` (database.py lines 483-502): insert the
order header, then one `order_items` row per line; returns the new order id. -/
def create_order (db : DB) (uid : Nat) (items : List (Nat × Int × ℚ)) (total : ℚ) :
    DB × Nat :=
  let oid := db.next_order_id
  ({ db with
      orders := db.orders ++ [⟨oid, uid, total, .pending⟩],
      order_items := db.order_items ++ items.map (fun i => ⟨oid, i.1, i.2.1, i.2.2⟩),
      next_order_id := oid + 1 }, oid)

/-- `DatabaseManager.create_purchase_notification` (database.py lines 438-445). -/
def create_purchase_notification (db : DB) (oid uid : Nat) (uname : List Char)
    (total : ℚ) : DB × Nat :=
  let nid := db.next_notif_id
  ({ db with
      notifs := db.notifs ++ [⟨nid, oid, uid, uname, total, false⟩],
      next_notif_id := nid + 1 }, nid)

/-- `DatabaseManager.get_unread_notifications` (database.py lines 447-457):
unread rows joined with their order's status. -/
def get_unread_notifications (db : DB) : List (NotifRow × OrderStatus) :=
  db.notifs.filterMap (fun n =>
    if n.is_read then none
    else (db.orders.find? (fun o => o.id == n.order_id)).map (fun o => (n, o.status)))

/-- `DatabaseManager.mark_notification_read` (database.py lines 471-475):
`UPDATE purchase_notifications SET is_read = 1 WHERE id = ?`. -/
def mark_notification_read (db : DB) (nid : Nat) : DB × Bool :=
  ({ db with notifs := db.notifs.map (fun n =>
      if n.id = nid then { n with is_read := true } else n) },
   db.notifs.any (fun n => n.id == nid))

/-- `DatabaseManager.mark_all_notifications_read` (database.py lines 477-481):
`UPDATE purchase_notifications SET is_read = 1 WHERE is_read = 0`. -/
def mark_all_notifications_read (db : DB) : DB × Nat :=
  ({ db with notifs := db.notifs.map (fun n =>
      if n.is_read then n else { n with is_read := true }) },
   (db.notifs.filter (fun n => !n.is_read)).length)

/-- The process state: the database plus the in-memory `user_carts` dict of
routers/guitar.py. -/
structure SysState where
  db : DB
  carts : List (Nat × Cart)
deriving DecidableEq, Repr

/-- `user_carts[user_id]` lookup. -/
def lookupCart : List (Nat × Cart) → Nat → Option Cart
  | [], _ => none
  | (k, c) :: rest, uid => if k = uid then some c else lookupCart rest uid

/-- `user_carts[user_id] = cart` (overwrite an existing entry, else append). -/
def setCart : List (Nat × Cart) → Nat → Cart → List (Nat × Cart)
  | [], uid, c => [(uid, c)]
  | (k, c0) :: rest, uid, c =>
    if k = uid then (k, c) :: rest else (k, c0) :: setCart rest uid c

/-- The validation loop of `purchase_guitars` (guitar.py lines 265-283):
re-fetch every line's live guitar, fail on a missing record or on
`guitar.stock < cart_item.quantity`, otherwise accumulate
`(guitar_id, quantity, round(effective_price, 2))` and the running total.
Returns the snapshot name of the first offending line on failure. -/
def validateAndPrice (db : DB) :
    List CartItem → List (Nat × Int × ℚ) → ℚ → Except String (List (Nat × Int × ℚ) × ℚ)
  | [], acc, tot => .ok (acc, tot)
  | it :: rest, acc, tot =>
    match get_guitar db it.guitar.id with
    | none => .error it.guitar.name
    | some g =>
      if g.stock < it.quantity then .error it.guitar.name
      else
        validateAndPrice db rest
          (acc ++ [(it.guitar.id, it.quantity, round2 (effectivePrice g))])
          (tot + round2 (effectivePrice g) * it.quantity)

/-- Whether a cart line blocks checkout: its live record is missing or has
fewer units than requested (the `if not guitar or guitar.stock < quantity`
test of guitar.py line 270). -/
def lineBlocked (db : DB) (it : CartItem) : Bool :=
  match get_guitar db it.guitar.id with
  | none => true
  | some g => g.stock < it.quantity

/-- `purchase_guitars` (guitar.py lines 247-303).  The validation loop only
reads; every raise in the source happens before the first write, so the
error branches return the input state.  On success: create the order and its
lines, create the admin notification, decrement stock per line, clear the
cart, and return `(order_id, total)`. -/
def purchase (st : SysState) (uid : Nat) (uname : List Char) :
    SysState × Except String (Nat × ℚ) :=
  match lookupCart st.carts uid with
  | none => (st, .error "Cart is empty")
  | some c =>
    if c.isEmpty then (st, .error "Cart is empty")
    else
      match validateAndPrice st.db (c.map (fun l => l.2)) [] 0 with
      | .error n => (st, .error ("Insufficient stock for " ++ n))
      | .ok (items, tot) =>
        let totalR := round2 tot
        let dbOrder := create_order st.db uid items totalR
        let db2 := (create_purchase_notification dbOrder.1 dbOrder.2 uid uname totalR).1
        let db3 := items.foldl (fun d i => update_stock d i.1 (-i.2.1)) db2
        ({ db := db3, carts := setCart st.carts uid [] }, .ok (dbOrder.2, totalR))

/-- Python `str.split(sep)` for a one-character separator: every occurrence
splits, empty segments are kept. -/
def splitOnChar (sep : Char) : List Char → List (List Char)
  | [] => [[]]
  | c :: cs =>
    if c = sep then [] :: splitOnChar sep cs
    else
      match splitOnChar sep cs with
      | [] => [[c]]
      | p :: ps => (c :: p) :: ps

/-- `AuthManager.hash_password` (auth.py lines 22-26) with the random salt
and the SHA-256 hex digest as parameters:
`f"{salt}${sha256(password + salt)}"`. -/
def hash_password (H : List Char → List Char) (salt password : List Char) : List Char :=
  salt ++ '$' :: H (password ++ salt)

/-- `AuthManager.verify_password` (auth.py lines 28-35): split the stored
value on `$` into exactly two parts, recompute the digest with the extracted
salt and compare; any other shape yields `false`. -/
def verify_password (H : List Char → List Char) (password stored : List Char) : Bool :=
  match splitOnChar '$' stored with
  | [salt, hv] => H (password ++ salt) == hv
  | _ => false

/-- `AuthManager.validate_password_strength` (auth.py lines 82-101): the
aggregated failure reasons; the password is valid iff this list is empty. -/
def passwordErrors (p : List Char) : List String :=
  (if p.length < 6 then ["Password must be at least 6 characters"] else []) ++
  (if p.any Char.isUpper then [] else ["Password must contain at least one uppercase letter"]) ++
  (if p.any Char.isLower then [] else ["Password must contain at least one lowercase letter"]) ++
  (if p.any Char.isDigit then [] else ["Password must contain at least one digit"])

/-- `AuthManager.validate_email` (auth.py lines 103-113): exactly one `@`,
non-empty local and domain parts, and a `.` somewhere in the domain. -/
def validate_email (e : List Char) : Bool :=
  if e.isEmpty || !(e.contains '@') then false
  else
    match splitOnChar '@' e with
    | [l, d] => !l.isEmpty && !d.isEmpty && d.contains '.'
    | _ => false

/-- `DatabaseManager.create_user` (database.py lines 346-360): the UNIQUE
constraints on username and email raise, translated to `ValueError`s. -/
def create_user (db : DB) (u : UserRow) : Except String (DB × Nat) :=
  if db.users.any (fun v => v.username == u.username) then .error "Username already exists"
  else if db.users.any (fun v => v.email == u.email) then .error "Email already exists"
  else
    let uid := db.next_user_id
    let u2 := { u with id := uid }
    .ok ({ db with users := db.users ++ [u2], next_user_id := uid + 1 }, uid)

/-- `register_user` (auth.py lines 150-177): strength check, email check,
duplicate username/email checks, then `create_user` on a `User` built with
`role=UserRole.CUSTOMER`.  Returns the stored row. -/
def register_user (db : DB) (username email password : List Char)
    (H : List Char → List Char) (salt : List Char) : Except String (DB × UserRow) :=
  if passwordErrors password ≠ [] then
    .error (String.intercalate "; " (passwordErrors password))
  else if !validate_email email then .error "Invalid email format"
  else if db.users.any (fun v => v.username == username) then
    .error "Username already exists"
  else if db.users.any (fun v => v.email == email) then
    .error "Email already registered"
  else
    match create_user db
      { id := 0, username := username, email := email,
        password_hash := hash_password H salt password,
        role := .customer, is_online := false } with
    | .error e => .error e
    | .ok (db2, uid) =>
      .ok (db2,
        { id := uid, username := username, email := email,
          password_hash := hash_password H salt password,
          role := .customer, is_online := false })

/-- The decoded token payload (the dict built in `generate_token`). -/
structure TokenPayload where
  user_id : Nat
  username : List Char
  role : UserRole
  exp : Nat
deriving DecidableEq, Repr

/-- The identity a token is issued for. -/
structure TokenUser where
  id : Nat
  username : List Char
  role : UserRole
deriving DecidableEq, Repr

/-- `TOKEN_EXPIRY_HOURS = 24`, in seconds. -/
def tokenExpirySeconds : Nat := 24 * 3600

/-- The payload dict of `generate_token`: user id, username, role, and
`exp = now + 24h`. -/
def mkTokenPayload (u : TokenUser) (now : Nat) : TokenPayload :=
  ⟨u.id, u.username, u.role, now + tokenExpirySeconds⟩

/-- `AuthManager.generate_token` (auth.py lines 37-53).  `encHeader` models
the constant `base64(json.dumps(header))` string, `encP` models
`base64(json.dumps(payload))`, `H` the SHA-256 hex digest:
`sig = H(header_b64 + "." + payload_b64 + "." + SECRET_KEY)` and the token
is `header_b64 + "." + payload_b64 + "." + sig`. -/
def generate_token (H : List Char → List Char) (encHeader : List Char)
    (encP : TokenPayload → List Char) (secret : List Char) (u : TokenUser)
    (now : Nat) : List Char :=
  let pb := encP (mkTokenPayload u now)
  encHeader ++ '.' :: (pb ++ '.' :: H (encHeader ++ '.' :: (pb ++ '.' :: secret)))

/-- The body of `verify_token` after the split: exactly three parts, the
recomputed signature must match, the payload must decode, and an expiry in
the past (`now > exp`) is rejected. -/
def verifyParts (H : List Char → List Char) (decP : List Char → Option TokenPayload)
    (secret : List Char) (now : Nat) : List (List Char) → Option TokenPayload
  | [hb, pb, sig] =>
    if sig = H (hb ++ '.' :: (pb ++ '.' :: secret)) then
      match decP pb with
      | none => none
      | some p => if p.exp < now then none else some p
    else none
  | _ => none

/-- `AuthManager.verify_token` (auth.py lines 55-80): split on `.` and
check the parts.  `decP` models `json.loads(base64.b64decode(payload_b64))`
(`none` for anything that raises). -/
def verify_token (H : List Char → List Char) (decP : List Char → Option TokenPayload)
    (secret : List Char) (token : List Char) (now : Nat) : Option TokenPayload :=
  verifyParts H decP secret now (splitOnChar '.' token)

/-- `update_cart_item` (guitar.py lines 197-219): missing cart dict entry is
an error; `quantity == 0` removes the line via `remove_item`; otherwise
`update_quantity` runs and its exception becomes the error result. -/
def update_cart_item (st : SysState) (uid gid : Nat) (q : Int) :
    SysState × Except String Unit :=
  match lookupCart st.carts uid with
  | none => (st, .error "Cart is empty")
  | some c =>
    if q = 0 then ({ st with carts := setCart st.carts uid (remove_item c gid) }, .ok ())
    else
      match update_quantity c gid q with
      | .error e => (st, .error e)
      | .ok c2 => ({ st with carts := setCart st.carts uid c2 }, .ok ())

/-- The price a successful checkout charges for one cart line: the live
record's discounted price rounded to 2 decimals, times the quantity. -/
def linePrice (db : DB) (it : CartItem) : ℚ :=
  match get_guitar db it.guitar.id with
  | some g => round2 (effectivePrice g) * it.quantity
  | none => 0

/-- The order total exactly as the spec words it (for comparison with the
code): the sum over cart lines of `price * (1 - discount/100) * quantity`
against the live records, rounded to 2 decimals at the end only. -/
def specOrderTotal (db : DB) (c : Cart) : ℚ :=
  round2 ((c.map (fun l =>
    match get_guitar db l.2.guitar.id with
    | some g => g.price * (1 - g.discount_percent / 100) * (l.2.quantity : ℚ)
    | none => 0)).sum)

/-- The cart total exactly as the spec words it (for comparison with the
code): the sum over cart lines of the discount-adjusted unit price times the
quantity. -/
def specCartTotal (c : Cart) : ℚ :=
  (c.map (fun l =>
    l.2.guitar.price * (1 - l.2.guitar.discount_percent / 100) * (l.2.quantity : ℚ))).sum

/-- Invariant: every stored cart line has quantity at least 1. -/
def cartQtyInv (c : Cart) : Prop := ∀ l ∈ c, 1 ≤ l.2.quantity

instance (c : Cart) : Decidable (cartQtyInv c) :=
  inferInstanceAs (Decidable (∀ l ∈ c, 1 ≤ l.2.quantity))

/-- A prefix-free two-character block per character, avoiding `.` in the
output; used to instantiate the digest parameter with an injective function
in the witnesses. -/
def escDot (c : Char) : List Char :=
  if c = '.' then ['!', 'a'] else if c = '!' then ['!', 'b'] else [c, 'z']

/-- An injective, `.`-free character-list code built from `escDot`. -/
def escAll : List Char → List Char
  | [] => []
  | c :: cs => escDot c ++ escAll cs

/-- Witness instantiation: a one-letter tag per role. -/
def roleChar : UserRole → Char
  | .customer => 'c'
  | .admin => 'a'

/-- Witness instantiation of the payload encoder (stands in for
`base64(json.dumps(payload))`). -/
def encPayloadW (p : TokenPayload) : List Char :=
  (toString p.user_id).data ++
    'u' :: (p.username ++ 'r' :: roleChar p.role :: 'e' :: (toString p.exp).data)

/-- The concrete payload used by the token witness (issued at time 0). -/
def payloadW : TokenPayload := ⟨1, ['a', 'l'], .customer, 86400⟩

/-- Witness instantiation of the payload decoder: inverts `encPayloadW` on
the one payload the witness uses. -/
def decPayloadW (s : List Char) : Option TokenPayload :=
  if s = encPayloadW payloadW then some payloadW else none

/-- The concrete user of the token witness. -/
def userW : TokenUser := ⟨1, ['a', 'l'], .customer⟩

/-- The concrete encoded-header constant of the token witness. -/
def hdrW : List Char := ['h', 'd']

/-- The concrete process secret of the token witness. -/
def secretW : List Char := ['s', 'k']

/-- An empty database with fresh autoincrement counters. -/
def dbEmpty : DB := ⟨[], [], [], [], [], 1, 1, 1⟩

/-- C1 fixture: live record with 2 units. -/
def gLow : Guitar := ⟨1, "Strat", "Fender", 50, 2, 0⟩

/-- C1 fixture: the cart snapshot was taken when 5 units were in stock and
asks for 3, but the live stock has dropped to 2. -/
def cartStale : Cart := [(1, ⟨{ gLow with stock := 5 }, 3⟩)]

/-- C1 fixture state. -/
def stStale : SysState := ⟨{ dbEmpty with guitars := [gLow] }, [(4, cartStale)]⟩

/-- Discounted guitar: price 100.00, discount 25, stock 5. -/
def gDisc : Guitar := ⟨1, "LP", "Gibson", 100, 5, 25⟩

/-- A cart holding two units of `gDisc`. -/
def cartDisc : Cart := [(1, ⟨gDisc, 2⟩)]

/-- State for the discount checkout example. -/
def stDisc : SysState := ⟨{ dbEmpty with guitars := [gDisc] }, [(4, cartDisc)]⟩

/-- Rounding fixture: price 10.07, discount 10. -/
def gRound : Guitar := ⟨1, "Dot", "Epiphone", 1007 / 100, 5, 10⟩

/-- A cart holding two units of `gRound`. -/
def cartRound : Cart := [(1, ⟨gRound, 2⟩)]

/-- State for the rounding counterexample. -/
def stRound : SysState := ⟨{ dbEmpty with guitars := [gRound] }, [(4, cartRound)]⟩

/-- C7 fixture: the live record now has 5 units. -/
def gLive7 : Guitar := ⟨1, "Tele", "Fender", 80, 5, 0⟩

/-- C7 fixture: the cart line was added when only 2 units were in stock. -/
def cartSnap7 : Cart := [(1, ⟨{ gLive7 with stock := 2 }, 1⟩)]

/-- C7 fixture state. -/
def stSnap7 : SysState := ⟨{ dbEmpty with guitars := [gLive7] }, [(7, cartSnap7)]⟩

/-- C8 fixture: two unread notifications on one order. -/
def dbNotif : DB :=
  { dbEmpty with
      orders := [⟨1, 4, 150, .pending⟩],
      notifs := [⟨1, 1, 4, ['a', 'l'], 150, false⟩, ⟨2, 1, 4, ['a', 'l'], 80, false⟩],
      next_order_id := 2, next_notif_id := 3 }

/-- The total field of the `get_cart` response for a user (guitar.py lines
140-170); a user without a cart dict entry gets a fresh empty cart.  The
computation reads only the in-memory cart snapshots, never the database. -/
def get_cart_total_route (st : SysState) (uid : Nat) : ℚ :=
  match lookupCart st.carts uid with
  | some c => getCartTotal c
  | none => getCartTotal []

/-- `stDisc`'s database after an admin applies a 50% discount to guitar 1. -/
def dbDisc50 : DB := update_guitar_discount stDisc.db 1 50

/-- The account row created by the registration witness. -/
def aliceRow : UserRow :=
  ⟨1, "alice".data, "alice@example.com".data, "ab$Passw0rdab".data, .customer, false⟩

/-- The database produced by the registration witness. -/
def dbAfterRegister : DB := { dbEmpty with users := [aliceRow], next_user_id := 2 }

theorem lookupLine_mem {c : Cart} {gid : Nat} {it : CartItem}
    (h : lookupLine c gid = some it) : (gid, it) ∈ c := by
  induction c with
  | nil => simp [lookupLine] at h
  | cons l rest ih =>
    obtain ⟨k, it0⟩ := l
    by_cases hk : k = gid
    · subst hk
      simp [lookupLine] at h
      simp [h]
    · simp [lookupLine, hk] at h
      exact List.mem_cons_of_mem _ (ih h)

theorem lookupLine_setLineQty_self {c : Cart} {gid : Nat} {it : CartItem} (q : Int)
    (h : lookupLine c gid = some it) :
    lookupLine (setLineQty c gid q) gid = some { it with quantity := q } := by
  induction c with
  | nil => simp [lookupLine] at h
  | cons l rest ih =>
    obtain ⟨k, it0⟩ := l
    by_cases hk : k = gid
    · subst hk
      simp [lookupLine] at h
      subst h
      simp [setLineQty, lookupLine]
    · simp [lookupLine, hk] at h
      simp [setLineQty, hk, lookupLine, ih h]

theorem lookupLine_append_right {c : Cart} {gid : Nat} (it : CartItem)
    (h : lookupLine c gid = none) :
    lookupLine (c ++ [(gid, it)]) gid = some it := by
  induction c with
  | nil => simp [lookupLine]
  | cons l rest ih =>
    obtain ⟨k, it0⟩ := l
    by_cases hk : k = gid
    · simp [lookupLine, hk] at h
    · simp [lookupLine, hk] at h ⊢
      exact ih h

theorem mem_setLineQty {c : Cart} {gid : Nat} {q : Int} :
    ∀ l ∈ setLineQty c gid q, l.2.quantity = q ∨ l ∈ c := by
  induction c with
  | nil => simp [setLineQty]
  | cons hd rest ih =>
    obtain ⟨k, it0⟩ := hd
    by_cases hk : k = gid
    · subst hk
      simp only [setLineQty, if_pos rfl]
      intro l hl
      rcases List.mem_cons.mp hl with h | h
      · subst h; left; rfl
      · right; exact List.mem_cons_of_mem _ h
    · simp only [setLineQty, if_neg hk]
      intro l hl
      rcases List.mem_cons.mp hl with h | h
      · subst h; right; exact List.mem_cons_self _ _
      · rcases ih l h with h2 | h2
        · left; exact h2
        · right; exact List.mem_cons_of_mem _ h2

/-- **C6.** `add_item` requires a positive quantity bounded by the passed
product's stock, combines quantities for an already-present product and
fails without mutating when the combined quantity would exceed that stock;
consequently a successful call leaves the added product's cart line with a
quantity no larger than the product's stock at the time of the call. -/
theorem add_item_stock_bound (c : Cart) (g : Guitar) (q : Int) :
    (q ≤ 0 → add_item c g q = .error "Quantity must be positive")
  ∧ (0 < q → g.stock < q →
      add_item c g q = .error ("Only " ++ toString g.stock ++ " items available in stock"))
  ∧ (∀ it, lookupLine c g.id = some it → 0 < q → q ≤ g.stock →
      g.stock < it.quantity + q →
      add_item c g q = .error ("Cannot add more. Only " ++ toString g.stock ++ " available"))
  ∧ (∀ c2, add_item c g q = .ok c2 →
      ∃ it, lookupLine c2 g.id = some it ∧ it.quantity ≤ g.stock) := by
  refine ⟨?_, ?_, ?_, ?_⟩
  · intro hq
    simp [add_item, hq]
  · intro hq hs
    rw [add_item, if_neg (by omega), if_pos hs]
  · intro it hit hq hqs hover
    rw [add_item, if_neg (by omega), if_neg (by omega), hit]
    simp [hover]
  · intro c2 hok
    rw [add_item] at hok
    by_cases hq : q ≤ 0
    · rw [if_pos hq] at hok; exact absurd hok (by simp)
    rw [if_neg hq] at hok
    by_cases hs : g.stock < q
    · rw [if_pos hs] at hok; exact absurd hok (by simp)
    rw [if_neg hs] at hok
    rcases hit : lookupLine c g.id with _ | it
    · rw [hit] at hok
      simp only [Except.ok.injEq] at hok
      subst hok
      exact ⟨⟨g, q⟩, lookupLine_append_right _ hit, show q ≤ g.stock by omega⟩
    · rw [hit] at hok
      have hok2 : (if g.stock < it.quantity + q then
            (Except.error ("Cannot add more. Only " ++ toString g.stock ++ " available") :
              Except String Cart)
          else .ok (setLineQty c g.id (it.quantity + q))) = .ok c2 := hok
      by_cases hover : g.stock < it.quantity + q
      · rw [if_pos hover] at hok2; exact absurd hok2 (by simp)
      · rw [if_neg hover] at hok2
        simp only [Except.ok.injEq] at hok2
        subst hok2
        exact ⟨{ it with quantity := it.quantity + q },
          lookupLine_setLineQty_self _ hit, show it.quantity + q ≤ g.stock by omega⟩

/-- Witness for `add_item_stock_bound` at concrete carts and quantities. -/
theorem add_item_stock_bound_witness :
    add_item [] gDisc 0 = .error "Quantity must be positive"
  ∧ add_item [] gDisc 7 = .error "Only 5 items available in stock"
  ∧ add_item cartDisc gDisc 4 = .error "Cannot add more. Only 5 available"
  ∧ ∃ it, lookupLine [(1, ⟨gDisc, 5⟩)] gDisc.id = some it ∧ it.quantity ≤ gDisc.stock :=
  ⟨(add_item_stock_bound [] gDisc 0).1 (by decide),
   (add_item_stock_bound [] gDisc 7).2.1 (by decide) (by decide),
   (add_item_stock_bound cartDisc gDisc 4).2.2.1 ⟨gDisc, 2⟩ (by decide) (by decide)
     (by decide) (by decide),
   (add_item_stock_bound cartDisc gDisc 3).2.2.2 [(1, ⟨gDisc, 5⟩)] (by decide)⟩

theorem item_count_nonneg {c : Cart} (h : cartQtyInv c) : 0 ≤ item_count c := by
  induction c with
  | nil => simp [item_count]
  | cons l rest ih =>
    have h1 : 1 ≤ l.2.quantity := h l (List.mem_cons_self _ _)
    have h2 : cartQtyInv rest := fun x hx => h x (List.mem_cons_of_mem _ hx)
    have := ih h2
    simp only [item_count, List.map_cons, List.sum_cons] at *
    omega

/-- **C10.** Every `ShoppingCart` operation preserves the invariant that
each stored line's quantity is at least 1, and under that invariant
`is_empty` holds exactly when `item_count` is zero. -/
theorem cart_ops_preserve_qty_inv :
    (∀ (c : Cart) (g : Guitar) (q : Int) (c2 : Cart), cartQtyInv c →
        add_item c g q = .ok c2 → cartQtyInv c2)
  ∧ (∀ (c : Cart) (gid : Nat) (q : Int) (c2 : Cart), cartQtyInv c →
        update_quantity c gid q = .ok c2 → cartQtyInv c2)
  ∧ (∀ (c : Cart) (gid : Nat), cartQtyInv c → cartQtyInv (remove_item c gid))
  ∧ (∀ c : Cart, cartQtyInv (clearCart c))
  ∧ (∀ c : Cart, cartQtyInv c → (is_empty c = true ↔ item_count c = 0)) := by
  have hset : ∀ (c : Cart) (gid : Nat) (q : Int), cartQtyInv c → 1 ≤ q →
      cartQtyInv (setLineQty c gid q) := by
    intro c gid q hc hq l hl
    rcases mem_setLineQty l hl with h | h
    · omega
    · exact hc l h
  have hrem : ∀ (c : Cart) (gid : Nat), cartQtyInv c → cartQtyInv (remove_item c gid) := by
    intro c gid hc l hl
    exact hc l (List.mem_of_mem_filter hl)
  refine ⟨?_, ?_, hrem, ?_, ?_⟩
  · intro c g q c2 hc hok
    rw [add_item] at hok
    by_cases hq : q ≤ 0
    · rw [if_pos hq] at hok; exact absurd hok (by simp)
    rw [if_neg hq] at hok
    by_cases hs : g.stock < q
    · rw [if_pos hs] at hok; exact absurd hok (by simp)
    rw [if_neg hs] at hok
    rcases hit : lookupLine c g.id with _ | it
    · rw [hit] at hok
      simp only [Except.ok.injEq] at hok
      subst hok
      intro l hl
      rcases List.mem_append.mp hl with h | h
      · exact hc l h
      · simp at h
        subst h
        simpa using by omega
    · rw [hit] at hok
      have hok2 : (if g.stock < it.quantity + q then
            (Except.error ("Cannot add more. Only " ++ toString g.stock ++ " available") :
              Except String Cart)
          else .ok (setLineQty c g.id (it.quantity + q))) = .ok c2 := hok
      by_cases hover : g.stock < it.quantity + q
      · rw [if_pos hover] at hok2; exact absurd hok2 (by simp)
      · rw [if_neg hover] at hok2
        simp only [Except.ok.injEq] at hok2
        subst hok2
        have h1 : 1 ≤ it.quantity := hc _ (lookupLine_mem hit)
        exact hset c g.id (it.quantity + q) hc (by omega)
  · intro c gid q c2 hc hok
    rw [update_quantity] at hok
    rcases hit : lookupLine c gid with _ | it
    · rw [hit] at hok; exact absurd hok (by simp)
    rw [hit] at hok
    have hok2 : (if q ≤ 0 then (Except.ok (remove_item c gid) : Except String Cart)
        else if it.guitar.stock < q then
          .error ("Only " ++ toString it.guitar.stock ++ " available")
        else .ok (setLineQty c gid q)) = .ok c2 := hok
    by_cases hq : q ≤ 0
    · rw [if_pos hq] at hok2
      simp only [Except.ok.injEq] at hok2
      subst hok2
      exact hrem c gid hc
    · rw [if_neg hq] at hok2
      by_cases hs : it.guitar.stock < q
      · rw [if_pos hs] at hok2; exact absurd hok2 (by simp)
      · rw [if_neg hs] at hok2
        simp only [Except.ok.injEq] at hok2
        subst hok2
        exact hset c gid q hc (by omega)
  · intro c l hl
    simp [clearCart] at hl
  · intro c hc
    cases c with
    | nil => simp [is_empty, item_count]
    | cons l rest =>
      have h1 : 1 ≤ l.2.quantity := hc l (List.mem_cons_self _ _)
      have h2 : cartQtyInv rest := fun x hx => hc x (List.mem_cons_of_mem _ hx)
      have h3 := item_count_nonneg h2
      constructor
      · intro h; simp [is_empty] at h
      · intro h
        simp only [item_count, List.map_cons, List.sum_cons] at h
        simp only [item_count] at h3
        omega

/-- Witness for `cart_ops_preserve_qty_inv` at a concrete cart. -/
theorem cart_ops_preserve_qty_inv_witness :
    cartQtyInv [(1, ⟨gDisc, 5⟩)] ∧ (is_empty cartDisc = true ↔ item_count cartDisc = 0) :=
  ⟨cart_ops_preserve_qty_inv.1 cartDisc gDisc 3 [(1, ⟨gDisc, 5⟩)] (by decide) (by decide),
   cart_ops_preserve_qty_inv.2.2.2.2 cartDisc (by decide)⟩

theorem lookupLine_remove_item (c : Cart) (gid : Nat) :
    lookupLine (remove_item c gid) gid = none := by
  induction c with
  | nil => rfl
  | cons l rest ih =>
    obtain ⟨k, it0⟩ := l
    by_cases hk : k = gid
    · simp [remove_item, hk] at ih ⊢
      exact ih
    · simp only [remove_item, List.filter_cons] at ih ⊢
      simp only [bne_iff_ne, ne_eq, hk, not_false_eq_true, decide_True, if_true]
      simp [lookupLine, hk]
      exact ih

theorem lookupLine_setLineQty_other (c : Cart) (gid gid2 : Nat) (q : Int)
    (h : gid2 ≠ gid) :
    lookupLine (setLineQty c gid q) gid2 = lookupLine c gid2 := by
  induction c with
  | nil => rfl
  | cons l rest ih =>
    obtain ⟨k, it0⟩ := l
    by_cases hk : k = gid
    · subst hk
      simp [setLineQty, lookupLine, Ne.symm h]
    · simp [setLineQty, hk, lookupLine, ih]

/-- **C7 counterexample.**  In `stSnap7` the live record of guitar 1 has 5
units in stock, yet updating the cart line to quantity 3 fails (the check
uses the cart snapshot's stock of 2, not the current stock), leaving the
state unchanged — the claim predicts this call succeeds. -/
theorem update_quantity_ignores_live_stock :
    (update_cart_item stSnap7 7 1 3).2 = .error "Only 2 available"
  ∧ (update_cart_item stSnap7 7 1 3).1 = stSnap7
  ∧ get_guitar stSnap7.db 1 = some gLive7
  ∧ (3 : Int) ≤ gLive7.stock := by decide

/-- **C7 (amended).** `update_quantity` on a present line removes it when
the quantity is ≤ 0, and otherwise validates the quantity against the stock
recorded in the line's guitar *snapshot* (the stock at the time the item was
added): it fails leaving the cart unchanged when the quantity exceeds that
snapshot stock, and otherwise sets the line's quantity, leaving every other
line untouched.  A line that is absent is an error. -/
theorem update_quantity_snapshot_stock (c : Cart) (gid : Nat) (q : Int) :
    (lookupLine c gid = none → update_quantity c gid q = .error "Item not in cart")
  ∧ (∀ it, lookupLine c gid = some it →
      (q ≤ 0 → update_quantity c gid q = .ok (remove_item c gid)
        ∧ lookupLine (remove_item c gid) gid = none)
    ∧ (0 < q → it.guitar.stock < q →
        update_quantity c gid q
          = .error ("Only " ++ toString it.guitar.stock ++ " available"))
    ∧ (0 < q → q ≤ it.guitar.stock →
        update_quantity c gid q = .ok (setLineQty c gid q)
        ∧ lookupLine (setLineQty c gid q) gid = some { it with quantity := q }
        ∧ ∀ gid2, gid2 ≠ gid →
            lookupLine (setLineQty c gid q) gid2 = lookupLine c gid2)) := by
  constructor
  · intro h
    rw [update_quantity, h]
  · intro it hit
    refine ⟨?_, ?_, ?_⟩
    · intro hq
      rw [update_quantity, hit]
      exact ⟨by simp [hq], lookupLine_remove_item c gid⟩
    · intro hq hs
      rw [update_quantity, hit]
      simp [show ¬ q ≤ 0 by omega, hs]
    · intro hq hs
      rw [update_quantity, hit]
      refine ⟨by simp [show ¬ q ≤ 0 by omega, show ¬ it.guitar.stock < q by omega], ?_, ?_⟩
      · exact lookupLine_setLineQty_self _ hit
      · intro gid2 h2
        exact lookupLine_setLineQty_other c gid gid2 q h2

/-- Witness for `update_quantity_snapshot_stock` on the C7 fixture cart. -/
theorem update_quantity_snapshot_stock_witness :
    update_quantity [] 1 1 = .error "Item not in cart"
  ∧ (update_quantity cartSnap7 1 0 = .ok (remove_item cartSnap7 1)
      ∧ lookupLine (remove_item cartSnap7 1) 1 = none)
  ∧ update_quantity cartSnap7 1 3 = .error "Only 2 available"
  ∧ (update_quantity cartSnap7 1 2 = .ok (setLineQty cartSnap7 1 2)
      ∧ lookupLine (setLineQty cartSnap7 1 2) 1
          = some ⟨{ gLive7 with stock := 2 }, 2⟩
      ∧ ∀ gid2, gid2 ≠ 1 →
          lookupLine (setLineQty cartSnap7 1 2) gid2 = lookupLine cartSnap7 gid2) :=
  ⟨(update_quantity_snapshot_stock [] 1 1).1 (by decide),
   ((update_quantity_snapshot_stock cartSnap7 1 0).2 ⟨{ gLive7 with stock := 2 }, 1⟩
      (by decide)).1 (by decide),
   ((update_quantity_snapshot_stock cartSnap7 1 3).2 ⟨{ gLive7 with stock := 2 }, 1⟩
      (by decide)).2.1 (by decide) (by decide),
   ((update_quantity_snapshot_stock cartSnap7 1 2).2 ⟨{ gLive7 with stock := 2 }, 1⟩
      (by decide)).2.2 (by decide) (by decide)⟩

/-- **C5 counterexample.**  On a one-line cart holding two units of a
25%-discounted guitar priced 100.00, `ShoppingCart.total` returns 200 — the
discount-adjusted sum the claim specifies is 150. -/
theorem cart_total_ignores_discount :
    cartTotal cartDisc = 200 ∧ specCartTotal cartDisc = 150
  ∧ cartTotal cartDisc ≠ specCartTotal cartDisc := by
  norm_num [cartTotal, specCartTotal, subtotal, cartDisc, gDisc]

/-- **C5 (amended).** `ShoppingCart.total` is computed (non-cached) but sums
plain `price * quantity` with no discount adjustment; the `get_cart` route
separately computes its displayed total as the rounded sum of per-line
`round(effective_price * quantity, 2)` over each line's *snapshot* guitar,
so a later catalog discount change does not alter the route's total. -/
theorem cart_totals_formula (c : Cart) :
    cartTotal c = (c.map (fun l => l.2.guitar.price * (l.2.quantity : ℚ))).sum
  ∧ getCartTotal c
      = round2 ((c.map (fun l =>
          round2 (effectivePrice l.2.guitar * (l.2.quantity : ℚ)))).sum)
  ∧ ∀ (st : SysState) (uid gid : Nat) (d : ℚ) (db2 : DB),
      apply_discount_to_guitar st.db gid d = .ok db2 →
      get_cart_total_route ⟨db2, st.carts⟩ uid = get_cart_total_route st uid := by
  refine ⟨by simp [cartTotal, subtotal], rfl, ?_⟩
  intro st uid gid d db2 _
  rfl

/-- Witness for `cart_totals_formula` at the discounted fixture cart. -/
theorem cart_totals_formula_witness :
    cartTotal cartDisc = (cartDisc.map (fun l => l.2.guitar.price * (l.2.quantity : ℚ))).sum
  ∧ get_cart_total_route ⟨dbDisc50, stDisc.carts⟩ 4 = get_cart_total_route stDisc 4 :=
  ⟨(cart_totals_formula cartDisc).1,
   (cart_totals_formula cartDisc).2.2 stDisc 4 1 50 dbDisc50 (by decide)⟩

theorem validateAndPrice_cons_none (db : DB) (it : CartItem) (rest : List CartItem)
    (acc : List (Nat × Int × ℚ)) (tot : ℚ) (hg : get_guitar db it.guitar.id = none) :
    validateAndPrice db (it :: rest) acc tot = .error it.guitar.name := by
  rw [validateAndPrice, hg]

theorem validateAndPrice_cons_some (db : DB) (it : CartItem) (rest : List CartItem)
    (acc : List (Nat × Int × ℚ)) (tot : ℚ) (g : Guitar)
    (hg : get_guitar db it.guitar.id = some g) :
    validateAndPrice db (it :: rest) acc tot
      = if g.stock < it.quantity then .error it.guitar.name
        else validateAndPrice db rest
          (acc ++ [(it.guitar.id, it.quantity, round2 (effectivePrice g))])
          (tot + round2 (effectivePrice g) * (it.quantity : ℚ)) := by
  rw [validateAndPrice, hg]

theorem purchase_some_cart (st : SysState) (uid : Nat) (uname : List Char) (cart : Cart)
    (hc : lookupCart st.carts uid = some cart) :
    purchase st uid uname
      = if cart.isEmpty = true then (st, .error "Cart is empty")
        else
          match validateAndPrice st.db (cart.map (fun l => l.2)) [] 0 with
          | .error n => (st, .error ("Insufficient stock for " ++ n))
          | .ok (items, tot) =>
            ({ db := items.foldl (fun d i => update_stock d i.1 (-i.2.1))
                  (create_purchase_notification (create_order st.db uid items (round2 tot)).1
                    (create_order st.db uid items (round2 tot)).2 uid uname (round2 tot)).1,
               carts := setCart st.carts uid [] },
             .ok ((create_order st.db uid items (round2 tot)).2, round2 tot)) := by
  rw [purchase, hc]

theorem purchase_empty_cart (st : SysState) (uid : Nat) (uname : List Char) (cart : Cart)
    (hc : lookupCart st.carts uid = some cart) (he : cart.isEmpty = true) :
    purchase st uid uname = (st, .error "Cart is empty") := by
  rw [purchase_some_cart st uid uname cart hc, he]
  simp

theorem purchase_error_branch (st : SysState) (uid : Nat) (uname : List Char) (cart : Cart)
    (n : String) (hc : lookupCart st.carts uid = some cart) (hne : cart.isEmpty = false)
    (hv : validateAndPrice st.db (cart.map (fun l => l.2)) [] 0 = .error n) :
    purchase st uid uname = (st, .error ("Insufficient stock for " ++ n)) := by
  rw [purchase_some_cart st uid uname cart hc, hne]
  simp only [Bool.false_eq_true, if_false]
  rw [hv]

theorem purchase_ok_branch (st : SysState) (uid : Nat) (uname : List Char) (cart : Cart)
    (items : List (Nat × Int × ℚ)) (tot : ℚ)
    (hc : lookupCart st.carts uid = some cart) (hne : cart.isEmpty = false)
    (hv : validateAndPrice st.db (cart.map (fun l => l.2)) [] 0 = .ok (items, tot)) :
    purchase st uid uname
      = ({ db := items.foldl (fun d i => update_stock d i.1 (-i.2.1))
              (create_purchase_notification (create_order st.db uid items (round2 tot)).1
                (create_order st.db uid items (round2 tot)).2 uid uname (round2 tot)).1,
           carts := setCart st.carts uid [] },
         .ok ((create_order st.db uid items (round2 tot)).2, round2 tot)) := by
  rw [purchase_some_cart st uid uname cart hc, hne]
  simp only [Bool.false_eq_true, if_false]
  rw [hv]

theorem validateAndPrice_error_of_blocked (db : DB) :
    ∀ (its : List CartItem) (acc : List (Nat × Int × ℚ)) (tot : ℚ),
      (∃ l ∈ its, lineBlocked db l = true) →
      ∃ l ∈ its, lineBlocked db l = true ∧
        validateAndPrice db its acc tot = .error l.guitar.name := by
  intro its
  induction its with
  | nil => simp
  | cons it rest ih =>
    intro acc tot hex
    by_cases hb : lineBlocked db it = true
    · refine ⟨it, List.mem_cons_self _ _, hb, ?_⟩
      rcases hg : get_guitar db it.guitar.id with _ | g
      · exact validateAndPrice_cons_none db it rest acc tot hg
      · simp only [lineBlocked, hg, decide_eq_true_eq] at hb
        rw [validateAndPrice_cons_some db it rest acc tot g hg, if_pos hb]
    · have hex2 : ∃ l ∈ rest, lineBlocked db l = true := by
        rcases hex with ⟨l, hl, hbl⟩
        rcases List.mem_cons.mp hl with rfl | hl2
        · exact absurd hbl hb
        · exact ⟨l, hl2, hbl⟩
      rcases hg : get_guitar db it.guitar.id with _ | g
      · exact absurd (by simp [lineBlocked, hg]) hb
      · have hs : ¬ g.stock < it.quantity := by
          intro hlt
          exact hb (by simp [lineBlocked, hg, hlt])
        rcases ih (acc ++ [(it.guitar.id, it.quantity, round2 (effectivePrice g))])
            (tot + round2 (effectivePrice g) * it.quantity) hex2 with ⟨l, hl, hbl, heq⟩
        refine ⟨l, List.mem_cons_of_mem _ hl, hbl, ?_⟩
        rw [validateAndPrice_cons_some db it rest acc tot g hg, if_neg hs]
        exact heq

/-- **C1.** If any line of the cart has a live (re-fetched) record with
fewer units in stock than the line requests, `purchase` fails with a user
error naming an offending product and mutates nothing: the returned state —
carts, orders, order lines, notifications, and guitar stock — is exactly
the input state. -/
theorem purchase_blocked_no_mutation (st : SysState) (uid : Nat) (uname : List Char)
    (cart : Cart) (hc : lookupCart st.carts uid = some cart)
    (l0 : Nat × CartItem) (hl0 : l0 ∈ cart) (g : Guitar)
    (hg : get_guitar st.db l0.2.guitar.id = some g) (hs : g.stock < l0.2.quantity) :
    ∃ it ∈ cart.map (fun l => l.2), lineBlocked st.db it = true ∧
      purchase st uid uname
        = (st, .error ("Insufficient stock for " ++ it.guitar.name)) := by
  have hex : ∃ it ∈ cart.map (fun l => l.2), lineBlocked st.db it = true := by
    refine ⟨l0.2, List.mem_map.mpr ⟨l0, hl0, rfl⟩, ?_⟩
    simp [lineBlocked, hg, hs]
  obtain ⟨it, hit, hbl, heq⟩ :=
    validateAndPrice_error_of_blocked st.db (cart.map (fun l => l.2)) [] 0 hex
  refine ⟨it, hit, hbl, ?_⟩
  have hne : cart.isEmpty = false := by
    cases cart with
    | nil => simp at hl0
    | cons a rest => rfl
  exact purchase_error_branch st uid uname cart it.guitar.name hc hne heq

/-- Witness for `purchase_blocked_no_mutation`: the `stStale` fixture, whose
only cart line asks for 3 units while the live stock is 2. -/
theorem purchase_blocked_no_mutation_witness :
    ∃ it ∈ cartStale.map (fun l => l.2), lineBlocked stStale.db it = true ∧
      purchase stStale 4 ['a', 'l']
        = (stStale, .error ("Insufficient stock for " ++ it.guitar.name)) :=
  purchase_blocked_no_mutation stStale 4 ['a', 'l'] cartStale rfl
    (1, ⟨{ gLow with stock := 5 }, 3⟩) (by decide) gLow (by decide) (by decide)

theorem validateAndPrice_ok_total (db : DB) :
    ∀ (its : List CartItem) (acc : List (Nat × Int × ℚ)) (tot : ℚ)
      (items : List (Nat × Int × ℚ)) (out : ℚ),
      validateAndPrice db its acc tot = .ok (items, out) →
      out = tot + (its.map (linePrice db)).sum := by
  intro its
  induction its with
  | nil =>
    intro acc tot items out h
    rw [validateAndPrice] at h
    simp only [Except.ok.injEq, Prod.mk.injEq] at h
    simp [← h.2]
  | cons it rest ih =>
    intro acc tot items out h
    rcases hg : get_guitar db it.guitar.id with _ | g
    · rw [validateAndPrice_cons_none db it rest acc tot hg] at h
      exact absurd h (by simp)
    · rw [validateAndPrice_cons_some db it rest acc tot g hg] at h
      by_cases hs : g.stock < it.quantity
      · rw [if_pos hs] at h; exact absurd h (by simp)
      · rw [if_neg hs] at h
        have h3 := ih _ _ _ _ h
        rw [h3]
        simp only [List.map_cons, List.sum_cons, linePrice, hg]
        ring

/-- **C2 counterexample.**  One cart line priced 10.07 with a 10% discount
and quantity 2: the code rounds the per-line effective price first
(`round(9.063, 2) = 9.06`) and returns a total of 18.12, while the claim's
formula — round the summed `price * (1 - discount/100) * quantity` — gives
18.13. -/
theorem purchase_total_rounding_mismatch :
    (purchase stRound 4 ['a', 'l']).2 = .ok (1, 1812 / 100)
  ∧ specOrderTotal stRound.db cartRound = 1813 / 100
  ∧ (1812 / 100 : ℚ) ≠ 1813 / 100 := by
  refine ⟨?_, ?_, by norm_num⟩
  · have h1 : validateAndPrice stRound.db (cartRound.map (fun l => l.2)) [] 0
        = .ok ([(1, 2, 906 / 100)], 1812 / 100) := by
      norm_num [validateAndPrice, stRound, cartRound, gRound, dbEmpty, get_guitar,
        effectivePrice, round2, List.find?]
    rw [purchase_ok_branch stRound 4 ['a', 'l'] cartRound [(1, 2, 906 / 100)]
      (1812 / 100) rfl rfl h1]
    norm_num [create_order, stRound, dbEmpty, round2]
  · norm_num [specOrderTotal, stRound, cartRound, gRound, dbEmpty, get_guitar,
      round2, List.find?]

/-- **C2 (amended).** For every successful purchase, the returned order
total is `round2` of the sum over cart lines of
`round2(live price * (1 - live discount/100)) * quantity` — the per-line
effective price is rounded to 2 decimals before being multiplied by the
quantity.  (The spec's 100.00 / discount 25 / quantity 2 example still
totals 150.00; see the witness.) -/
theorem purchase_total_formula (st : SysState) (uid : Nat) (uname : List Char)
    (cart : Cart) (hc : lookupCart st.carts uid = some cart)
    (st2 : SysState) (oid : Nat) (total : ℚ)
    (h : purchase st uid uname = (st2, .ok (oid, total))) :
    total = round2 ((cart.map (fun l => linePrice st.db l.2)).sum) := by
  by_cases he : cart.isEmpty = true
  · rw [purchase_empty_cart st uid uname cart hc he] at h
    simp at h
  · have hne : cart.isEmpty = false := by
      revert he
      cases cart.isEmpty <;> simp
    rcases hv : validateAndPrice st.db (cart.map (fun l => l.2)) [] 0 with e | ⟨items, tot⟩
    · rw [purchase_error_branch st uid uname cart e hc hne hv] at h
      simp at h
    · rw [purchase_ok_branch st uid uname cart items tot hc hne hv] at h
      simp only [Prod.mk.injEq, Except.ok.injEq] at h
      have htot : total = round2 tot := h.2.2.symm
      have h3 := validateAndPrice_ok_total st.db _ _ _ _ _ hv
      rw [htot, h3]
      simp only [zero_add, List.map_map]
      rfl

/-- Witness for `purchase_total_formula`: the 100.00 / discount 25 /
quantity 2 example totals 150.00. -/
theorem purchase_total_formula_witness :
    (purchase stDisc 4 ['a', 'l']).2 = .ok (1, 150)
  ∧ (150 : ℚ) = round2 ((cartDisc.map (fun l => linePrice stDisc.db l.2)).sum) := by
  have h2 : (purchase stDisc 4 ['a', 'l']).2 = .ok (1, 150) := by
    have h1 : validateAndPrice stDisc.db (cartDisc.map (fun l => l.2)) [] 0
        = .ok ([(1, 2, 75)], 150) := by
      norm_num [validateAndPrice, stDisc, cartDisc, gDisc, dbEmpty, get_guitar,
        effectivePrice, round2, List.find?]
    rw [purchase_ok_branch stDisc 4 ['a', 'l'] cartDisc [(1, 2, 75)] 150 rfl rfl h1]
    norm_num [create_order, stDisc, dbEmpty, round2]
  have h : purchase stDisc 4 ['a', 'l'] = ((purchase stDisc 4 ['a', 'l']).1, .ok (1, 150)) := by
    rw [← h2]
  exact ⟨h2, purchase_total_formula stDisc 4 ['a', 'l'] cartDisc rfl
    (purchase stDisc 4 ['a', 'l']).1 1 150 h⟩

theorem mark_all_sets_is_read (db : DB) :
    ∀ n ∈ (mark_all_notifications_read db).1.notifs, n.is_read = true := by
  intro n hn
  simp only [mark_all_notifications_read, List.mem_map] at hn
  obtain ⟨m, _, hm⟩ := hn
  by_cases h : m.is_read
  · rw [← hm, if_pos h]
    exact h
  · rw [← hm, if_neg h]

/-- **C8.** After `mark_all_notifications_read`, the unread-only listing is
empty; and `mark_notification_read nid` rewrites exactly the row with id
`nid` to the same row with its read flag set, leaving every other row (all
fields) unchanged. -/
theorem notification_read_tracking (db : DB) (nid : Nat) :
    get_unread_notifications (mark_all_notifications_read db).1 = []
  ∧ (∀ (i : Nat) (n : NotifRow), db.notifs[i]? = some n → n.id ≠ nid →
      ((mark_notification_read db nid).1.notifs)[i]? = some n)
  ∧ (∀ (i : Nat) (n : NotifRow), db.notifs[i]? = some n → n.id = nid →
      ((mark_notification_read db nid).1.notifs)[i]?
        = some { n with is_read := true }) := by
  refine ⟨?_, ?_, ?_⟩
  · rw [get_unread_notifications, List.filterMap_eq_nil_iff]
    intro n hn
    rw [if_pos (mark_all_sets_is_read db n hn)]
  · intro i n hget hne
    simp only [mark_notification_read, List.getElem?_map, hget, Option.map_some']
    rw [if_neg hne]
  · intro i n hget heq
    simp only [mark_notification_read, List.getElem?_map, hget, Option.map_some']
    rw [if_pos heq]

/-- Witness for `notification_read_tracking` on the two-notification
fixture database. -/
theorem notification_read_tracking_witness :
    get_unread_notifications (mark_all_notifications_read dbNotif).1 = []
  ∧ ((mark_notification_read dbNotif 1).1.notifs)[1]?
      = some ⟨2, 1, 4, ['a', 'l'], 80, false⟩
  ∧ ((mark_notification_read dbNotif 1).1.notifs)[0]?
      = some ⟨1, 1, 4, ['a', 'l'], 150, true⟩ :=
  ⟨(notification_read_tracking dbNotif 1).1,
   (notification_read_tracking dbNotif 1).2.1 1 ⟨2, 1, 4, ['a', 'l'], 80, false⟩
     (by decide) (by decide),
   (notification_read_tracking dbNotif 1).2.2 0 ⟨1, 1, 4, ['a', 'l'], 150, false⟩
     (by decide) (by decide)⟩

theorem create_user_users (db : DB) (u : UserRow) (db3 : DB) (uid : Nat)
    (h : create_user db u = .ok (db3, uid)) :
    db3.users = db.users ++ [{ u with id := uid }] := by
  rw [create_user] at h
  by_cases h1 : db.users.any (fun v => v.username == u.username) = true
  · rw [if_pos h1] at h
    exact absurd h (by simp)
  · rw [if_neg h1] at h
    by_cases h2 : db.users.any (fun v => v.email == u.email) = true
    · rw [if_pos h2] at h
      exact absurd h (by simp)
    · rw [if_neg h2] at h
      simp only [Except.ok.injEq, Prod.mk.injEq] at h
      rw [← h.1, ← h.2]

/-- **C9.** Every account the public `register_user` operation creates has
role `customer`: on success the returned row's role is `customer`, and every
user row of the resulting database either predates the call or has role
`customer` — no input yields an admin account. -/
theorem register_user_role_customer (db : DB) (username email password : List Char)
    (H : List Char → List Char) (salt : List Char) (db2 : DB) (u : UserRow)
    (h : register_user db username email password H salt = .ok (db2, u)) :
    u.role = .customer ∧ ∀ v ∈ db2.users, v ∈ db.users ∨ v.role = .customer := by
  rw [register_user] at h
  by_cases h1 : passwordErrors password ≠ []
  · rw [if_pos h1] at h
    exact absurd h (by simp)
  rw [if_neg h1] at h
  by_cases h2 : (!validate_email email) = true
  · rw [if_pos h2] at h
    exact absurd h (by simp)
  rw [if_neg h2] at h
  by_cases h3 : db.users.any (fun v => v.username == username) = true
  · rw [if_pos h3] at h
    exact absurd h (by simp)
  rw [if_neg h3] at h
  by_cases h4 : db.users.any (fun v => v.email == email) = true
  · rw [if_pos h4] at h
    exact absurd h (by simp)
  rw [if_neg h4] at h
  rcases hcu : create_user db
      { id := 0, username := username, email := email,
        password_hash := hash_password H salt password,
        role := .customer, is_online := false } with e | ⟨db3, uid⟩
  · rw [hcu] at h
    exact absurd h (by simp)
  · rw [hcu] at h
    simp only [Except.ok.injEq, Prod.mk.injEq] at h
    constructor
    · rw [← h.2]
    · intro v hv
      rw [← h.1] at hv
      rw [create_user_users db _ db3 uid hcu] at hv
      rcases List.mem_append.mp hv with hl | hr
      · exact Or.inl hl
      · right
        simp only [List.mem_singleton] at hr
        rw [hr]

/-- Witness for `register_user_role_customer`: registering alice on an empty
database. -/
theorem register_user_role_customer_witness :
    aliceRow.role = .customer
  ∧ ∀ v ∈ dbAfterRegister.users, v ∈ dbEmpty.users ∨ v.role = .customer :=
  register_user_role_customer dbEmpty "alice".data "alice@example.com".data
    "Passw0rd".data (fun s => s) "ab".data dbAfterRegister aliceRow (by decide)

theorem splitOnChar_cons_eq (sep : Char) (cs : List Char) :
    splitOnChar sep (sep :: cs) = [] :: splitOnChar sep cs := by
  rw [splitOnChar, if_pos rfl]

theorem splitOnChar_cons_ne (sep c : Char) (cs : List Char) (h : c ≠ sep)
    (p : List Char) (ps : List (List Char)) (hs : splitOnChar sep cs = p :: ps) :
    splitOnChar sep (c :: cs) = (c :: p) :: ps := by
  rw [splitOnChar, if_neg h, hs]

theorem splitOnChar_ne_nil (sep : Char) (l : List Char) : splitOnChar sep l ≠ [] := by
  induction l with
  | nil => simp [splitOnChar]
  | cons c cs ih =>
    by_cases h : c = sep
    · subst h
      rw [splitOnChar_cons_eq]
      simp
    · rcases hs : splitOnChar sep cs with _ | ⟨p, ps⟩
      · exact absurd hs ih
      · rw [splitOnChar_cons_ne sep c cs h p ps hs]
        simp

theorem splitOnChar_no_sep (sep : Char) (l : List Char) (h : sep ∉ l) :
    splitOnChar sep l = [l] := by
  induction l with
  | nil => rfl
  | cons c cs ih =>
    have hc : c ≠ sep := fun hc => h (hc ▸ List.mem_cons_self _ _)
    have hcs : sep ∉ cs := fun hm => h (List.mem_cons_of_mem _ hm)
    rw [splitOnChar_cons_ne sep c cs hc cs [] (ih hcs)]

theorem splitOnChar_append_sep (sep : Char) (a b : List Char) (h : sep ∉ a) :
    splitOnChar sep (a ++ sep :: b) = a :: splitOnChar sep b := by
  induction a with
  | nil => simpa using splitOnChar_cons_eq sep b
  | cons c a2 ih =>
    have hc : c ≠ sep := fun hc => h (hc ▸ List.mem_cons_self _ _)
    have ha2 : sep ∉ a2 := fun hm => h (List.mem_cons_of_mem _ hm)
    rw [List.cons_append,
      splitOnChar_cons_ne sep c (a2 ++ sep :: b) hc a2 (splitOnChar sep b) (ih ha2)]

theorem splitOnChar_two (sep : Char) (a b : List Char) (ha : sep ∉ a) (hb : sep ∉ b) :
    splitOnChar sep (a ++ sep :: b) = [a, b] := by
  rw [splitOnChar_append_sep sep a b ha, splitOnChar_no_sep sep b hb]

theorem splitOnChar_three (sep : Char) (a b c : List Char)
    (ha : sep ∉ a) (hb : sep ∉ b) (hc : sep ∉ c) :
    splitOnChar sep (a ++ sep :: (b ++ sep :: c)) = [a, b, c] := by
  rw [splitOnChar_append_sep sep a (b ++ sep :: c) ha, splitOnChar_two sep b c hb hc]

theorem append_sep_left_inj (sep : Char) (a1 a2 b1 b2 : List Char)
    (h : a1 ++ sep :: b1 = a2 ++ sep :: b2) (h1 : sep ∉ a1) (h2 : sep ∉ a2) :
    a1 = a2 := by
  have hs := congrArg (splitOnChar sep) h
  rw [splitOnChar_append_sep sep a1 b1 h1, splitOnChar_append_sep sep a2 b2 h2] at hs
  exact (List.cons.injEq _ _ _ _ ▸ hs).1

/-- **C4.** `verify_password P (hash_password P)` holds, and hashing is
salted: the same plaintext hashed under two distinct salts yields two
different stored values, both of which still verify.  The digest is the
parameter `H`; the hypotheses record that salts and hex digests contain no
`$` separator, as in the source. -/
theorem password_hash_salted_roundtrip (H : List Char → List Char)
    (password salt1 salt2 : List Char)
    (h1 : '$' ∉ salt1) (h2 : '$' ∉ salt2)
    (hH1 : '$' ∉ H (password ++ salt1)) (hH2 : '$' ∉ H (password ++ salt2))
    (hne : salt1 ≠ salt2) :
    verify_password H password (hash_password H salt1 password) = true
  ∧ verify_password H password (hash_password H salt2 password) = true
  ∧ hash_password H salt1 password ≠ hash_password H salt2 password := by
  have key : ∀ s, '$' ∉ s → '$' ∉ H (password ++ s) →
      verify_password H password (hash_password H s password) = true := by
    intro s hs hH
    rw [verify_password, hash_password, splitOnChar_two '$' s (H (password ++ s)) hs hH]
    simp
  refine ⟨key salt1 h1 hH1, key salt2 h2 hH2, ?_⟩
  intro heq
  rw [hash_password, hash_password] at heq
  exact hne (append_sep_left_inj '$' salt1 salt2 _ _ heq h1 h2)

theorem not_mem_set (l : List Char) (i : Nat) (c x : Char) (hx : x ∉ l) (hxc : x ≠ c) :
    x ∉ l.set i c := fun hm => (List.mem_or_eq_of_mem_set hm).elim hx hxc

theorem getD_set_self (l : List Char) (i : Nat) (c d : Char) (h : i < l.length) :
    (l.set i c).getD i d = c := by
  rw [List.getD_eq_getElem _ _ (by simpa using h)]
  exact List.getElem_set_self _

theorem set_ne_of_ne_getD (l : List Char) (i : Nat) (c d : Char) (h : i < l.length)
    (hne : c ≠ l.getD i d) : l.set i c ≠ l := by
  intro he
  apply hne
  have h1 := getD_set_self l i c d h
  rw [he] at h1
  exact h1.symm

theorem verifyParts_of_ne (H : List Char → List Char)
    (decP : List Char → Option TokenPayload) (secret : List Char) (now : Nat)
    (A B S : List Char) (h : S ≠ H (A ++ '.' :: (B ++ '.' :: secret))) :
    verifyParts H decP secret now [A, B, S] = none := by
  rw [verifyParts, if_neg h]

/-- Changing any single character of a well-formed token
`hb ++ "." ++ pb ++ "." ++ sig` whose signature is genuine
(`sig = H(hb ++ "." ++ pb ++ "." ++ secret)`) makes `verify_token` reject,
provided the digest `H` is collision-free (injective). -/
theorem verify_set_none (H : List Char → List Char)
    (decP : List Char → Option TokenPayload) (secret : List Char) (now : Nat)
    (hb pb sig : List Char)
    (hH : ∀ s1 s2, H s1 = H s2 → s1 = s2)
    (hhd : '.' ∉ hb) (hpd : '.' ∉ pb) (hsd : '.' ∉ sig)
    (hsig : sig = H (hb ++ '.' :: (pb ++ '.' :: secret)))
    (i : Nat) (c : Char)
    (hi : i < (hb ++ '.' :: (pb ++ '.' :: sig)).length)
    (hc : c ≠ (hb ++ '.' :: (pb ++ '.' :: sig)).getD i ' ') :
    verify_token H decP secret ((hb ++ '.' :: (pb ++ '.' :: sig)).set i c) now = none := by
  have hlen : (hb ++ '.' :: (pb ++ '.' :: sig)).length
      = hb.length + 1 + pb.length + 1 + sig.length := by
    simp [List.length_append]
    omega
  rcases Nat.lt_or_ge i hb.length with ha | h1
  · -- the changed character is inside the encoded header
    have hset : (hb ++ '.' :: (pb ++ '.' :: sig)).set i c
        = hb.set i c ++ '.' :: (pb ++ '.' :: sig) := by
      rw [List.set_append, if_pos ha]
    have hgd : (hb ++ '.' :: (pb ++ '.' :: sig)).getD i ' ' = hb.getD i ' ' :=
      List.getD_append _ _ _ _ ha
    rw [hgd] at hc
    by_cases hcd : c = '.'
    · subst hcd
      have ht : hb.set i '.' = hb.take i ++ '.' :: hb.drop (i + 1) := by
        rw [List.set_eq_take_append_cons_drop, if_pos ha]
      have hassoc : (hb.take i ++ '.' :: hb.drop (i + 1)) ++ '.' :: (pb ++ '.' :: sig)
          = hb.take i ++ '.' :: (hb.drop (i + 1) ++ '.' :: (pb ++ '.' :: sig)) := by
        simp [List.append_assoc]
      rw [verify_token, hset, ht, hassoc,
        splitOnChar_append_sep '.' _ _ (fun hm => hhd (List.mem_of_mem_take hm)),
        splitOnChar_append_sep '.' _ _ (fun hm => hhd (List.mem_of_mem_drop hm)),
        splitOnChar_append_sep '.' _ _ hpd, splitOnChar_no_sep '.' _ hsd]
      rfl
    · have hnd : '.' ∉ hb.set i c := not_mem_set hb i c '.' hhd (fun he => hcd he.symm)
      rw [verify_token, hset, splitOnChar_three '.' _ _ _ hnd hpd hsd]
      apply verifyParts_of_ne
      intro he
      have h2 := hH _ _ (hsig.symm.trans he)
      have h3 : hb = hb.set i c := List.append_cancel_right h2
      exact set_ne_of_ne_getD hb i c ' ' ha hc h3.symm
  · rcases Nat.eq_or_lt_of_le h1 with hb1 | h2
    · -- the changed character is the first separator dot
      obtain rfl : i = hb.length := hb1.symm
      have hgd : (hb ++ '.' :: (pb ++ '.' :: sig)).getD hb.length ' ' = '.' := by
        rw [List.getD_append_right _ _ _ _ (le_refl _), Nat.sub_self, List.getD_cons_zero]
      rw [hgd] at hc
      have hset : (hb ++ '.' :: (pb ++ '.' :: sig)).set hb.length c
          = hb ++ c :: (pb ++ '.' :: sig) := by
        rw [List.set_append, if_neg (lt_irrefl _), Nat.sub_self]
        rfl
      have hassoc : hb ++ c :: (pb ++ '.' :: sig) = (hb ++ c :: pb) ++ '.' :: sig := by
        simp [List.append_assoc]
      have hnd : '.' ∉ hb ++ c :: pb := by
        intro hm
        rcases List.mem_append.mp hm with h | h
        · exact hhd h
        · rcases List.mem_cons.mp h with h | h
          · exact hc h.symm
          · exact hpd h
      rw [verify_token, hset, hassoc, splitOnChar_two '.' _ _ hnd hsd]
      rfl
    · rcases Nat.lt_or_ge i (hb.length + 1 + pb.length) with h3 | h4
      · -- the changed character is inside the encoded payload
        obtain ⟨j, rfl⟩ : ∃ j, i = hb.length + 1 + j := ⟨i - (hb.length + 1), by omega⟩
        have hjlt : j < pb.length := by omega
        have hsub : hb.length + 1 + j - hb.length = j + 1 := by omega
        have hset : (hb ++ '.' :: (pb ++ '.' :: sig)).set (hb.length + 1 + j) c
            = hb ++ '.' :: (pb.set j c ++ '.' :: sig) := by
          rw [List.set_append, if_neg (by omega), hsub, List.set_cons_succ,
            List.set_append, if_pos hjlt]
        have hgd : (hb ++ '.' :: (pb ++ '.' :: sig)).getD (hb.length + 1 + j) ' '
            = pb.getD j ' ' := by
          rw [List.getD_append_right _ _ _ _ (by omega), hsub, List.getD_cons_succ,
            List.getD_append _ _ _ _ hjlt]
        rw [hgd] at hc
        by_cases hcd : c = '.'
        · subst hcd
          have ht : pb.set j '.' = pb.take j ++ '.' :: pb.drop (j + 1) := by
            rw [List.set_eq_take_append_cons_drop, if_pos hjlt]
          have hassoc : hb ++ '.' :: ((pb.take j ++ '.' :: pb.drop (j + 1)) ++ '.' :: sig)
              = hb ++ '.' :: (pb.take j ++ '.' :: (pb.drop (j + 1) ++ '.' :: sig)) := by
            simp [List.append_assoc]
          rw [verify_token, hset, ht, hassoc,
            splitOnChar_append_sep '.' _ _ hhd,
            splitOnChar_append_sep '.' _ _ (fun hm => hpd (List.mem_of_mem_take hm)),
            splitOnChar_append_sep '.' _ _ (fun hm => hpd (List.mem_of_mem_drop hm)),
            splitOnChar_no_sep '.' _ hsd]
          rfl
        · have hnd : '.' ∉ pb.set j c := not_mem_set pb j c '.' hpd (fun he => hcd he.symm)
          rw [verify_token, hset, splitOnChar_three '.' _ _ _ hhd hnd hsd]
          apply verifyParts_of_ne
          intro he
          have h5 := hH _ _ (hsig.symm.trans he)
          have h6 := List.append_cancel_left h5
          have h7 : pb ++ '.' :: secret = pb.set j c ++ '.' :: secret :=
            (List.cons.injEq _ _ _ _ ▸ h6).2
          have h8 : pb = pb.set j c := List.append_cancel_right h7
          exact set_ne_of_ne_getD pb j c ' ' hjlt hc h8.symm
      · rcases Nat.eq_or_lt_of_le h4 with hd1 | h5
        · -- the changed character is the second separator dot
          obtain rfl : i = hb.length + 1 + pb.length := hd1.symm
          have hsub : hb.length + 1 + pb.length - hb.length = pb.length + 1 := by omega
          have hgd : (hb ++ '.' :: (pb ++ '.' :: sig)).getD (hb.length + 1 + pb.length) ' '
              = '.' := by
            rw [List.getD_append_right _ _ _ _ (by omega), hsub, List.getD_cons_succ,
              List.getD_append_right _ _ _ _ (le_refl _), Nat.sub_self, List.getD_cons_zero]
          rw [hgd] at hc
          have hset : (hb ++ '.' :: (pb ++ '.' :: sig)).set (hb.length + 1 + pb.length) c
              = hb ++ '.' :: (pb ++ c :: sig) := by
            rw [List.set_append, if_neg (by omega), hsub, List.set_cons_succ,
              List.set_append, if_neg (lt_irrefl _), Nat.sub_self]
            rfl
          have hnd : '.' ∉ pb ++ c :: sig := by
            intro hm
            rcases List.mem_append.mp hm with h | h
            · exact hpd h
            · rcases List.mem_cons.mp h with h | h
              · exact hc h.symm
              · exact hsd h
          rw [verify_token, hset, splitOnChar_append_sep '.' _ _ hhd,
            splitOnChar_no_sep '.' _ hnd]
          rfl
        · -- the changed character is inside the signature
          obtain ⟨j, rfl⟩ : ∃ j, i = hb.length + 1 + pb.length + 1 + j :=
            ⟨i - (hb.length + 1 + pb.length + 1), by omega⟩
          have hjlt : j < sig.length := by
            rw [hlen] at hi
            omega
          have hsub : hb.length + 1 + pb.length + 1 + j - hb.length
              = (pb.length + 1 + j) + 1 := by omega
          have hsub2 : pb.length + 1 + j - pb.length = j + 1 := by omega
          have hset : (hb ++ '.' :: (pb ++ '.' :: sig)).set
                (hb.length + 1 + pb.length + 1 + j) c
              = hb ++ '.' :: (pb ++ '.' :: sig.set j c) := by
            rw [List.set_append, if_neg (by omega), hsub, List.set_cons_succ,
              List.set_append, if_neg (by omega), hsub2, List.set_cons_succ]
          have hgd : (hb ++ '.' :: (pb ++ '.' :: sig)).getD
                (hb.length + 1 + pb.length + 1 + j) ' '
              = sig.getD j ' ' := by
            rw [List.getD_append_right _ _ _ _ (by omega), hsub, List.getD_cons_succ,
              List.getD_append_right _ _ _ _ (by omega), hsub2, List.getD_cons_succ]
          rw [hgd] at hc
          by_cases hcd : c = '.'
          · subst hcd
            have ht : sig.set j '.' = sig.take j ++ '.' :: sig.drop (j + 1) := by
              rw [List.set_eq_take_append_cons_drop, if_pos hjlt]
            rw [verify_token, hset, ht,
              splitOnChar_append_sep '.' _ _ hhd,
              splitOnChar_append_sep '.' _ _ hpd,
              splitOnChar_append_sep '.' _ _ (fun hm => hsd (List.mem_of_mem_take hm)),
              splitOnChar_no_sep '.' _ (fun hm => hsd (List.mem_of_mem_drop hm))]
            rfl
          · have hnd : '.' ∉ sig.set j c := not_mem_set sig j c '.' hsd (fun he => hcd he.symm)
            rw [verify_token, hset, splitOnChar_three '.' _ _ _ hhd hpd hnd]
            apply verifyParts_of_ne
            intro he
            have h6 : sig.set j c = sig := he.trans hsig.symm
            exact set_ne_of_ne_getD sig j c ' ' hjlt hc h6

/-- **C3.** Verifying a freshly issued token before its expiry returns the
original user id, username and role (the issued payload), and changing any
single character of the token makes `verify_token` return `none`.  The
digest `H` is assumed injective (collision-freeness of SHA-256), and the
payload codec pair round-trips on the issued payload; the `'.' ∉ _`
hypotheses record that base64/hex output never contains the separator. -/
theorem token_roundtrip_and_tamper
    (H : List Char → List Char) (encHeader : List Char)
    (encP : TokenPayload → List Char) (decP : List Char → Option TokenPayload)
    (secret : List Char) (u : TokenUser) (tIssue tCheck : Nat)
    (hH : ∀ s1 s2, H s1 = H s2 → s1 = s2)
    (hdec : decP (encP (mkTokenPayload u tIssue)) = some (mkTokenPayload u tIssue))
    (hhd : '.' ∉ encHeader)
    (hpd : '.' ∉ encP (mkTokenPayload u tIssue))
    (hsd : '.' ∉ H (encHeader ++ '.' ::
      (encP (mkTokenPayload u tIssue) ++ '.' :: secret)))
    (hexp : tCheck ≤ tIssue + tokenExpirySeconds) :
    verify_token H decP secret (generate_token H encHeader encP secret u tIssue) tCheck
      = some (mkTokenPayload u tIssue)
  ∧ ∀ (i : Nat) (c : Char),
      i < (generate_token H encHeader encP secret u tIssue).length →
      c ≠ (generate_token H encHeader encP secret u tIssue).getD i ' ' →
      verify_token H decP secret
        ((generate_token H encHeader encP secret u tIssue).set i c) tCheck = none := by
  have hgen : generate_token H encHeader encP secret u tIssue
      = encHeader ++ '.' :: (encP (mkTokenPayload u tIssue) ++ '.' ::
          H (encHeader ++ '.' :: (encP (mkTokenPayload u tIssue) ++ '.' :: secret))) := rfl
  constructor
  · rw [hgen, verify_token, splitOnChar_three '.' _ _ _ hhd hpd hsd, verifyParts,
      if_pos rfl, hdec]
    have hlt : ¬ ((mkTokenPayload u tIssue).exp < tCheck) := by
      simp only [mkTokenPayload]
      omega
    show (if (mkTokenPayload u tIssue).exp < tCheck then none
        else some (mkTokenPayload u tIssue)) = some (mkTokenPayload u tIssue)
    rw [if_neg hlt]
  · intro i c hi hc
    rw [hgen] at hi hc ⊢
    exact verify_set_none H decP secret tCheck encHeader (encP (mkTokenPayload u tIssue))
      (H (encHeader ++ '.' :: (encP (mkTokenPayload u tIssue) ++ '.' :: secret)))
      hH hhd hpd hsd rfl i c hi hc

theorem escDot_length (c : Char) : (escDot c).length = 2 := by
  rw [escDot]
  split_ifs <;> rfl

theorem escDot_inj (c1 c2 : Char) (h : escDot c1 = escDot c2) : c1 = c2 := by
  by_cases h1 : c1 = '.' <;> by_cases h2 : c2 = '.' <;>
    by_cases h3 : c1 = '!' <;> by_cases h4 : c2 = '!' <;>
    simp_all [escDot]

theorem escAll_inj : ∀ s1 s2 : List Char, escAll s1 = escAll s2 → s1 = s2 := by
  intro s1
  induction s1 with
  | nil =>
    intro s2 h
    cases s2 with
    | nil => rfl
    | cons d ds =>
      exfalso
      have := congrArg List.length h
      simp [escAll, escDot_length] at this
      omega
  | cons c cs ih =>
    intro s2 h
    cases s2 with
    | nil =>
      exfalso
      have := congrArg List.length h
      simp [escAll, escDot_length] at this
    | cons d ds =>
      rw [escAll, escAll] at h
      have hlen : (escDot c).length = (escDot d).length := by
        rw [escDot_length, escDot_length]
      obtain ⟨h1, h2⟩ := List.append_inj h hlen
      rw [escDot_inj c d h1, ih ds h2]

/-- Witness for `token_roundtrip_and_tamper`: concrete injective digest
(`escAll`), concrete codec, user and times; the tamper half is instantiated
at position 0 with the character `?`. -/
theorem token_roundtrip_and_tamper_witness :
    verify_token escAll decPayloadW secretW
      (generate_token escAll hdrW encPayloadW secretW userW 0) 100 = some payloadW
  ∧ verify_token escAll decPayloadW secretW
      ((generate_token escAll hdrW encPayloadW secretW userW 0).set 0 '?') 100 = none :=
  ⟨(token_roundtrip_and_tamper escAll hdrW encPayloadW decPayloadW secretW
      userW 0 100 escAll_inj (by decide) (by decide) (by decide) (by decide)
      (by decide)).1,
   (token_roundtrip_and_tamper escAll hdrW encPayloadW decPayloadW secretW
      userW 0 100 escAll_inj (by decide) (by decide) (by decide) (by decide)
      (by decide)).2 0 '?' (by decide) (by decide)⟩

/-- Witness for `password_hash_salted_roundtrip` with a concrete digest
function, password and salt pair. -/
theorem password_hash_salted_roundtrip_witness :
    verify_password (fun s => s) ['p', 'w']
      (hash_password (fun s => s) ['a', 'a'] ['p', 'w']) = true
  ∧ verify_password (fun s => s) ['p', 'w']
      (hash_password (fun s => s) ['b', 'b'] ['p', 'w']) = true
  ∧ hash_password (fun s => s) ['a', 'a'] ['p', 'w']
      ≠ hash_password (fun s => s) ['b', 'b'] ['p', 'w'] :=
  password_hash_salted_roundtrip (fun s => s) ['p', 'w'] ['a', 'a'] ['b', 'b']
    (by decide) (by decide) (by decide) (by decide) (by decide)
